import Mathlib

/-!
Shallow embedding of the yabu backup manager
(`src/yabu_cmd/model/backup_manager.py` and its collaborators
`controller/destination.py`, `controller/preset.py`, `controller/backup.py`)
in Lean 4, together with theorems settling the frozen claims about it.

Modelling conventions:
* paths, file names, file contents, and format strings are `List Char`
  (abbreviated `Str`);
* the file system visible to the engine is a list of destination
  directories (each a list of named archive files) plus a list of target
  trees;
* a zip archive is its ordered list of content entries plus the optional
  embedded `.yabu.meta` record, stored structurally (JSON round-trips);
* the MD5 digest of the archive bytes is modelled as an injective
  fingerprint of the ordered entry list: two archives have equal digests
  exactly when their written entries coincide;
* `datetime.now()` is an explicit clock `Nat → DateTime`, one tick per
  `strftime` call;
* Python exceptions that the engine raises or yields become constructors
  of the `Err` type; generator runs record the yielded items and the
  exception, if any, that escaped the iteration.
-/

/-- Characters of a Python `str`. -/
abbrev Str := List Char

/-- Bytes of a file's contents (modelled as characters). -/
abbrev Bytes := List Char

/-! ### Python string/path primitives -/

/-- Recursion core of `csSplit`: structural on a fuel that bounds the
remaining length (every step consumes at least one character once the
separator is nonempty, so the fuel never runs out when it starts at
`s.length + 1`). -/
def csSplitAux (sep : Str) : Nat → Str → List Str
  | 0, s => [s]
  | _ + 1, [] => [[]]
  | fuel + 1, c :: rest =>
    if sep.isPrefixOf (c :: rest) then
      [] :: csSplitAux sep fuel ((c :: rest).drop sep.length)
    else
      match csSplitAux sep fuel rest with
      | [] => [[c]]
      | p :: ps => (c :: p) :: ps

/-- Model of Python `str.split(sep)` for a nonempty separator: split on each
leftmost occurrence of `sep`, keeping empty pieces.  (Python raises
`ValueError` on an empty separator; callers model that branch
explicitly.) -/
def csSplit (sep : Str) (s : Str) : List Str :=
  if sep = [] then [s] else csSplitAux sep (s.length + 1) s

/-- Split a character list at its last dot: `splitLastDot s = some (a, b)`
when `s = a ++ '.' :: b` and `b` is dot-free. -/
def splitLastDot : Str → Option (Str × Str)
  | [] => none
  | c :: cs =>
    match splitLastDot cs with
    | some (a, b) => some (c :: a, b)
    | none => if c = '.' then some ([], cs) else none

/-- Model of `pathlib.PurePath.stem` applied to a file name: the name
without its final suffix; the dot must be neither leading nor trailing. -/
def pyStem (s : Str) : Str :=
  match splitLastDot s with
  | some (a, b) => if a = [] ∨ b = [] then s else a
  | none => s

/-- Model of `pathlib.PurePath.suffix` applied to a file name. -/
def pySuffix (s : Str) : Str :=
  match splitLastDot s with
  | some (a, b) => if a = [] ∨ b = [] then [] else '.' :: b
  | none => []

/-- Last path component of a POSIX-style path (model of `Path(p).name`). -/
def lastComponent (p : Str) : Str :=
  (csSplit ['/'] p).getLastD []

/-- Whether `pat` occurs as a contiguous substring of `s`
(for nonempty `pat`). -/
def occursIn (pat : Str) (s : Str) : Bool :=
  decide (1 < (csSplit pat s).length)

/-- A file name matches the glob pattern `*.zip`: it ends in `.zip` and is
not a hidden (dot-leading) name, which `Path.glob` skips. -/
def globZipMatch (s : Str) : Bool :=
  List.isSuffixOf ['.', 'z', 'i', 'p'] s &&
    (match s with
     | [] => false
     | c :: _ => decide (c ≠ '.'))

/-! ### datetime: rendering and parsing

`datetime` values are modelled structurally; `strftime`/`strptime` are
implemented for the zero-padded numeric directives the repository uses
(`%Y %m %d %H %M %S %f`) plus `%%`; other characters are literal.  Python
`strptime` rejects unknown directives and unconverted trailing data. -/

structure DateTime where
  year : Nat
  month : Nat
  day : Nat
  hour : Nat
  minute : Nat
  second : Nat
  micro : Nat
deriving DecidableEq, Repr

/-- Zero-padded fixed-width decimal rendering, most significant digit
first: exactly `w` digits of `n % 10 ^ w`. -/
def padNum : Nat → Nat → Str
  | 0, _ => []
  | w + 1, n => Nat.digitChar (n / 10 ^ w % 10) :: padNum w n

/-- Model of `datetime.strftime` for the supported directives. -/
def strftime (t : DateTime) : Str → Str
  | [] => []
  | '%' :: c :: rest =>
    (if c = 'Y' then padNum 4 t.year
     else if c = 'm' then padNum 2 t.month
     else if c = 'd' then padNum 2 t.day
     else if c = 'H' then padNum 2 t.hour
     else if c = 'M' then padNum 2 t.minute
     else if c = 'S' then padNum 2 t.second
     else if c = 'f' then padNum 6 t.micro
     else if c = '%' then ['%']
     else ['%', c]) ++ strftime t rest
  | c :: rest => c :: strftime t rest

/-- Read exactly `w` decimal digits, accumulating onto `acc`. -/
def readFixed (acc : Nat) : Nat → Str → Option (Nat × Str)
  | 0, s => some (acc, s)
  | _ + 1, [] => none
  | w + 1, c :: s => if c.isDigit then readFixed (acc * 10 + (c.toNat - 48)) w s else none

/-- Model of `datetime.strptime` matching: consume `s` against the format,
updating the fields of `t` for each directive; fail on mismatch, on an
unknown directive, or on unconverted trailing data. -/
def fmtParse (t : DateTime) : Str → Str → Option DateTime
  | [], s => if s = [] then some t else none
  | '%' :: c :: rest, s =>
    if c = 'Y' then
      match readFixed 0 4 s with
      | some (v, s') => fmtParse { t with year := v } rest s'
      | none => none
    else if c = 'm' then
      match readFixed 0 2 s with
      | some (v, s') => fmtParse { t with month := v } rest s'
      | none => none
    else if c = 'd' then
      match readFixed 0 2 s with
      | some (v, s') => fmtParse { t with day := v } rest s'
      | none => none
    else if c = 'H' then
      match readFixed 0 2 s with
      | some (v, s') => fmtParse { t with hour := v } rest s'
      | none => none
    else if c = 'M' then
      match readFixed 0 2 s with
      | some (v, s') => fmtParse { t with minute := v } rest s'
      | none => none
    else if c = 'S' then
      match readFixed 0 2 s with
      | some (v, s') => fmtParse { t with second := v } rest s'
      | none => none
    else if c = 'f' then
      match readFixed 0 6 s with
      | some (v, s') => fmtParse { t with micro := v } rest s'
      | none => none
    else if c = '%' then
      match s with
      | '%' :: s' => fmtParse t rest s'
      | _ => none
    else none
  | c :: rest, s =>
    match s with
    | c' :: s' => if c' = c then fmtParse t rest s' else none
    | [] => none

/-- Python `strptime` default base date is 1900-01-01 00:00:00. -/
def strptimeBase : DateTime := ⟨1900, 1, 1, 0, 0, 0, 0⟩

/-- Model of `datetime.strptime fmt s`. -/
def strptime (fmt s : Str) : Option DateTime :=
  fmtParse strptimeBase fmt s

/-- The field tuple of a `datetime`, ordered lexicographically as Python
orders `datetime` values. -/
def dtKey (t : DateTime) :
    Lex (Nat × Lex (Nat × Lex (Nat × Lex (Nat × Lex (Nat × Lex (Nat × Nat)))))) :=
  toLex (t.year, toLex (t.month, toLex (t.day, toLex (t.hour,
    toLex (t.minute, toLex (t.second, t.micro))))))

/-- Python `datetime` comparison: lexicographic on the fields. -/
def dtLe (a b : DateTime) : Bool := decide (dtKey a ≤ dtKey b)

/-- Strict version of `dtLe`. -/
def dtLt (a b : DateTime) : Bool := !(dtLe b a)

/-! ### Data model: Destination, Preset, Backup, archives, the file system -/

/-- `controller/destination.py`: one storage location and its policy. -/
structure Destination where
  path : Str
  date_format : Str
  name_separator : Str
  max_backup_count : Nat
  file_format : Str
deriving DecidableEq, Repr

/-- `controller/preset.py`: a named set of targets and destinations. -/
structure Preset where
  name : Str
  targets : List Str
  destinations : List Destination
deriving DecidableEq, Repr

/-- One content entry written into a zip archive: its path relative to the
archive root, whether it is a directory entry, and its bytes. -/
structure Entry where
  relpath : Str
  isDir : Bool
  content : Bytes
deriving DecidableEq, Repr

/-- The MD5 hex digest of the archive bytes, modelled as an injective
fingerprint of the ordered list of written entries (the archive bytes are
a function of the entries, and digest collisions are not modelled). -/
def md5 (entries : List Entry) : List Entry := entries

/-- The `.yabu.meta` record embedded in every archive the engine writes
(`_create_metafile` serializes it as JSON; JSON round-trips, so it is
stored structurally). -/
structure Metadata where
  target : Str
  name_separator : Str
  date_format : Str
  content_hash : List Entry
  content_type : Str
deriving DecidableEq, Repr

/-- A file with a `.zip` name in a destination directory: its ordered
content entries and, if present, the embedded metadata record.  A foreign
zip that was not produced by the engine has `meta = none`. -/
structure Archive where
  entries : List Entry
  meta : Option Metadata
deriving DecidableEq, Repr

/-- `controller/backup.py`: the immutable descriptor of one archive. -/
structure Backup where
  name : Str
  path : Str
  date_format : Str
  name_separator : Str
  target : Str
  date : DateTime
  content_hash : List Entry
  content_type : Str
deriving DecidableEq, Repr

mutual
/-- A target on disk: a regular file or a directory tree. -/
inductive FTree where
  | file (content : Bytes)
  | dir (children : FForest)

/-- The named children of a directory, in directory order. -/
inductive FForest where
  | nil
  | cons (name : Str) (tree : FTree) (rest : FForest)
end

/-- The slice of the file system the engine touches: destination
directories (path, named files) and target paths (path, tree). -/
structure FS where
  dirs : List (Str × List (Str × Archive))
  trees : List (Str × FTree)

/-- The Python exceptions of `exceptions.py` that appear in the modelled
flows, plus the interpreter-level errors the code can hit. -/
inductive Err where
  | notABackup (path : Str)
  | format (msg : Str)
  | backupHash (path : Str)
  | targetNotFound (path : Str)
  | destinationNotFound (path : Str)
  | contentType (msg : Str)
  | fileNotFound (path : Str)
  | valueError (msg : Str)
  | indexError
  | typeError
  | unboundLocal (name : Str)
deriving DecidableEq, Repr

instance {e a : Type} [DecidableEq e] [DecidableEq a] : DecidableEq (Except e a) :=
  fun x y =>
    match x, y with
    | .ok v, .ok w => decidable_of_iff (v = w) (by simp)
    | .error v, .error w => decidable_of_iff (v = w) (by simp)
    | .ok _, .error _ => .isFalse (by simp)
    | .error _, .ok _ => .isFalse (by simp)

/-- Files of a destination directory, `[]` when the directory does not
exist (matching `Path.glob` yielding nothing there). -/
def FS.dirFiles (fs : FS) (p : Str) : List (Str × Archive) :=
  match fs.dirs.find? (fun d => d.1 = p) with
  | some d => d.2
  | none => []

/-- Whether a directory exists at `p`. -/
def FS.dirExists (fs : FS) (p : Str) : Bool :=
  (fs.dirs.find? (fun d => d.1 = p)).isSome

/-- The tree at a target path, if the target exists. -/
def FS.treeAt (fs : FS) (p : Str) : Option FTree :=
  (fs.trees.find? (fun d => d.1 = p)).map (fun d => d.2)

/-- Create or overwrite the file `fname` inside directory `dpath`. -/
def FS.writeFile (fs : FS) (dpath fname : Str) (ar : Archive) : FS :=
  { fs with
    dirs := fs.dirs.map (fun d =>
      if d.1 = dpath then (d.1, d.2.filter (fun f => f.1 ≠ fname) ++ [(fname, ar)])
      else d) }

/-- Model of `Path.unlink` on an archive path `dir ++ "/" ++ name`. -/
def FS.unlink (fs : FS) (path : Str) : FS :=
  { fs with
    dirs := fs.dirs.map (fun d =>
      (d.1, d.2.filter (fun f => d.1 ++ '/' :: f.1 ≠ path))) }

/-! ### Archive codec (`_create_zip_archive`, `_create_metafile`) -/

mutual
/-- Entries produced under `target.glob("**/*")` for one named item of a
directory, with paths relative to the target root, in a deterministic
pre-order walk.  (Python's actual enumeration order is
platform-dependent; the spec flags this, and no theorem below depends on
the order across distinct trees.) -/
def flattenItem (pre n : Str) : FTree → List Entry
  | FTree.file c => [⟨pre ++ n, false, c⟩]
  | FTree.dir cs => ⟨pre ++ n, true, []⟩ :: flattenForest (pre ++ n ++ ['/']) cs

/-- Entries of all items of a directory, in directory order. -/
def flattenForest (pre : Str) : FForest → List Entry
  | FForest.nil => []
  | FForest.cons n t rest => flattenItem pre n t ++ flattenForest pre rest
end

/-- The content entries `_create_zip_archive` writes for a target:
every item under a directory tree, or the single file relative to its own
parent (that is, under its file name). -/
def mkEntries (targetName : Str) : FTree → List Entry
  | FTree.dir cs => flattenForest [] cs
  | FTree.file c => [⟨targetName, false, c⟩]

/-- `get_content_type` (`backup_manager.py` lines 67-84): `"folder"` for a
directory, `"file"` for a file.  (The `ValueError` branch needs a path
that is neither, which a `FTree` cannot be.) -/
def get_content_type : FTree → Str
  | FTree.dir _ => ['f', 'o', 'l', 'd', 'e', 'r']
  | FTree.file _ => ['f', 'i', 'l', 'e']

/-- `_create_zip_archive` followed by `_create_metafile`: write the content
entries, digest the archive bytes as written so far, then append the
metadata record.  Returns the archive file name and the archive. -/
def create_zip_archive (archive_name : Str) (targetPath targetName : Str)
    (tr : FTree) (d : Destination) : Str × Archive :=
  let entries := mkEntries targetName tr
  let h := md5 entries
  let meta : Metadata :=
    ⟨targetPath, d.name_separator, d.date_format, h, get_content_type tr⟩
  (archive_name ++ ['.', 'z', 'i', 'p'], ⟨entries, some meta⟩)

/-! ### Discovery (`get_backup_from_file`, `_get_destination_backups`,
`_get_backups`, `get_backups`, `get_latest_backup`) -/

/-- Python `str.split(sep)`, including the `ValueError` on an empty
separator. -/
def pySplit (s sep : Str) : Except Err (List Str) :=
  if sep = [] then .error (.valueError ['s', 'e', 'p'])
  else .ok (csSplit sep s)

/-- `list[i]` with Python's `IndexError`. -/
def pyIndex (l : List Str) (i : Nat) : Except Err Str :=
  match l[i]? with
  | some v => .ok v
  | none => .error .indexError

/-- `BackupManager.get_backup_from_file` (lines 93-132): for a `.zip` path,
read the embedded metadata (raising `NotABackupException` when absent),
split the stem on the recorded separator, parse the date with the recorded
format, and build the `Backup`.  For any other suffix the method falls
through and returns `None`. -/
def get_backup_from_file (dpath fname : Str) (ar : Archive) :
    Except Err (Option Backup) :=
  if pySuffix fname = ['.', 'z', 'i', 'p'] then
    match ar.meta with
    | none => .error (.notABackup (dpath ++ '/' :: fname))
    | some m => do
      let parts ← pySplit (pyStem fname) m.name_separator
      let name_str ← pyIndex parts 0
      let date_str ← pyIndex parts 1
      match strptime m.date_format date_str with
      | none => .error (.valueError ['s', 't', 'r', 'p', 't', 'i', 'm', 'e'])
      | some date =>
        .ok (some ⟨name_str, dpath ++ '/' :: fname, m.date_format,
          m.name_separator, m.target, date, m.content_hash, m.content_type⟩)
  else .ok none

/-- The loop body of `_get_destination_backups`: read each globbed file
into a `Backup`, aborting on the first raised exception.  (Each globbed
name has suffix `.zip`, so `get_backup_from_file` never returns `None`
here; that branch is modelled as an unreachable error.) -/
def collectBackups (dpath : Str) : List (Str × Archive) → Except Err (List Backup)
  | [] => .ok []
  | (n, ar) :: rest =>
    match get_backup_from_file dpath n ar with
    | .error e => .error e
    | .ok none => .error .typeError
    | .ok (some b) =>
      match collectBackups dpath rest with
      | .error e => .error e
      | .ok bs => .ok (b :: bs)

/-- Date order on backups, as used by `backups.sort(key=self._get_backup_date)`. -/
def backupDateLe (a b : Backup) : Prop := dtLe a.date b.date = true

instance : DecidableRel backupDateLe := fun a b => by
  unfold backupDateLe; infer_instance

/-- `BackupManager._get_destination_backups` (lines 285-311): glob `*.zip`,
read every file as a backup, and sort ascending by date (Python's sort is
stable; `List.insertionSort` with a non-strict relation is as well). -/
def get_destination_backups (fs : FS) (d : Destination) :
    Except Err (List Backup) :=
  if d.file_format = ['z', 'i', 'p'] then
    match collectBackups d.path ((fs.dirFiles d.path).filter (fun f => globZipMatch f.1)) with
    | .error e => .error e
    | .ok bs => .ok (List.insertionSort backupDateLe bs)
  else .error (.format d.file_format)

/-- `BackupManager._get_backups` (lines 265-283): the destination's
backups whose `target` matches exactly, in discovery (sorted) order. -/
def get_backups_of_target (fs : FS) (target : Str) (d : Destination) :
    Except Err (List Backup) :=
  match get_destination_backups fs d with
  | .error e => .error e
  | .ok bs => .ok (bs.filter (fun b => b.target = target))

/-- The source argument of `get_backups`: a `Destination` or a `Preset`. -/
inductive Source where
  | dest (d : Destination)
  | preset (p : Preset)

/-- `itertools.product(targets, destinations)`. -/
def pairsOf (p : Preset) : List (Str × Destination) :=
  p.targets.flatMap (fun t => p.destinations.map (fun d => (t, d)))

/-- Fold of `backups += self._get_backups(...)` over a preset's pairs. -/
def gatherPresetBackups (fs : FS) : List (Str × Destination) →
    Except Err (List Backup)
  | [] => .ok []
  | (t, d) :: rest =>
    match get_backups_of_target fs t d with
    | .error e => .error e
    | .ok bs =>
      match gatherPresetBackups fs rest with
      | .error e => .error e
      | .ok bs' => .ok (bs ++ bs')

/-- `BackupManager.get_backups` (lines 467-501).  The `Preset`-with-target
branch reads the local `backups` before any assignment, so CPython raises
`UnboundLocalError` there (and the branch also lacks a `return`). -/
def get_backups (fs : FS) (source : Source) (target : Option Str) :
    Except Err (List Backup) :=
  match source, target with
  | .dest d, none => get_destination_backups fs d
  | .dest d, some t => get_backups_of_target fs t d
  | .preset p, none =>
    match gatherPresetBackups fs (pairsOf p) with
    | .error e => .error e
    | .ok bs => .ok (List.insertionSort backupDateLe bs)
  | .preset _, some _ =>
    .error (.unboundLocal ['b', 'a', 'c', 'k', 'u', 'p', 's'])

/-- `BackupManager.get_latest_backup` (lines 503-526): the last element of
the sorted list, or `None` when there are no backups. -/
def get_latest_backup (fs : FS) (source : Source) (target : Option Str) :
    Except Err (Option Backup) :=
  match get_backups fs source target with
  | .error e => .error e
  | .ok bs => .ok bs.getLast?

/-! ### Retention (`_get_delete_candidates`, `_delete_old_backups`) -/

/-- `BackupManager._get_delete_candidates` (lines 218-248): all of the
destination's backups made from `target`; when more than
`max_backup_count`, the first (oldest) `count - max_backup_count` of the
date-sorted list. -/
def get_delete_candidates (fs : FS) (target : Str) (d : Destination) :
    Except Err (List Backup) :=
  match get_backups fs (.dest d) none with
  | .error e => .error e
  | .ok bs =>
    let target_backups := bs.filter (fun b => b.target = target)
    if target_backups.length > d.max_backup_count then
      .ok (target_backups.take (target_backups.length - d.max_backup_count))
    else
      .ok []

/-- `BackupManager._delete_old_backups` (lines 250-263): unlink every
delete candidate. -/
def delete_old_backups (fs : FS) (target : Str) (d : Destination) :
    Except Err FS :=
  match get_delete_candidates fs target d with
  | .error e => .error e
  | .ok cands => .ok (cands.foldl (fun f b => f.unlink b.path) fs)

/-! ### Creation (`create_backups`) -/

/-- One value yielded by the `create_backups` generator: a new `Backup` or
a per-pair exception yielded in its place. -/
inductive Item where
  | backup (b : Backup)
  | err (e : Err)
deriving DecidableEq, Repr

/-- A consumed run of the generator: the items yielded in order, the final
file-system state and clock tick, and the exception, if any, that was
raised out of the iteration (killing it). -/
structure RunResult where
  items : List Item
  fs : FS
  tick : Nat
  raised : Option Err

/-- The body of `create_backups` for one `(target, destination)` pair
(lines 346-383).  `clock tick` is the value of `datetime.now()`; the tick
advances exactly when `now()` is evaluated.  Returns the yielded item and
the updated state, or the exception raised out of the generator. -/
def processPair (clock : Nat → DateTime) (force keep : Bool)
    (fs : FS) (tick : Nat) (target : Str) (d : Destination) :
    Except Err (Item × FS × Nat) :=
  match get_latest_backup fs (.dest d) (some target) with
  | .error e => .error e
  | .ok latest =>
    match fs.treeAt target with
    | none => .ok (.err (.targetNotFound target), fs, tick)
    | some tr =>
      if fs.dirExists d.path = false then
        .ok (.err (.destinationNotFound d.path), fs, tick)
      else
        let archive_name :=
          pyStem (lastComponent target) ++ d.name_separator ++
            strftime (clock tick) d.date_format
        if d.file_format = ['z', 'i', 'p'] then
          let fa := create_zip_archive archive_name target (lastComponent target) tr d
          let fs1 := fs.writeFile d.path fa.1 fa.2
          match get_backup_from_file d.path fa.1 fa.2 with
          | .error e => .error e
          | .ok none => .error .typeError
          | .ok (some new_backup) =>
            if force = false ∧ (∃ lb, latest = some lb ∧
                lb.content_hash = new_backup.content_hash) then
              match latest with
              | some lb =>
                .ok (.err (.backupHash lb.path), fs1.unlink new_backup.path, tick + 1)
              | none => .error .typeError
            else
              if keep = false then
                match delete_old_backups fs1 target d with
                | .error e => .error e
                | .ok fs2 => .ok (.backup new_backup, fs2, tick + 1)
              else
                .ok (.backup new_backup, fs1, tick + 1)
        else
          .ok (.err (.format d.file_format), fs, tick)

/-- `BackupManager.create_backups` (lines 313-383) run to exhaustion over
the pairs of `itertools.product(preset._targets, preset._destinations)`:
collect the yielded values in order, stopping early if an exception is
raised out of the generator. -/
def runPairs (clock : Nat → DateTime) (force keep : Bool) :
    List (Str × Destination) → FS → Nat → RunResult
  | [], fs, tick => ⟨[], fs, tick, none⟩
  | (t, d) :: rest, fs, tick =>
    match processPair clock force keep fs tick t d with
    | .error e => ⟨[], fs, tick, some e⟩
    | .ok (item, fs', tick') =>
      let r := runPairs clock force keep rest fs' tick'
      ⟨item :: r.items, r.fs, r.tick, r.raised⟩

/-- One full consumption of `create_backups(preset, force, keep)`. -/
def create_backups (clock : Nat → DateTime) (force keep : Bool)
    (p : Preset) (fs : FS) (tick : Nat) : RunResult :=
  runPairs clock force keep (pairsOf p) fs tick

/-! ### Restoration (`restore_backup`, `extract_zip_archive`,
`restore_zip_archive`, `rmdir`) -/

/-- Look up the child named `n` of a directory. -/
def forestFind : FForest → Str → Option FTree
  | FForest.nil, _ => none
  | FForest.cons m t rest, n => if m = n then some t else forestFind rest n

/-- Set (create or replace) the child `n` of a directory. -/
def forestSet : FForest → Str → FTree → FForest
  | FForest.nil, n, t => FForest.cons n t FForest.nil
  | FForest.cons m t0 rest, n, t =>
    if m = n then FForest.cons m t rest else FForest.cons m t0 (forestSet rest n t)

/-- Write one extracted entry (a relative path) into a directory,
creating intermediate directories, overwriting files, and keeping the
contents of directories that already exist. -/
def insertEntry (cs : FForest) : List Str → Bool → Bytes → FForest
  | [], _, _ => cs
  | [n], isDir, content =>
    if isDir then
      match forestFind cs n with
      | some (FTree.dir _) => cs
      | _ => forestSet cs n (.dir .nil)
    else forestSet cs n (.file content)
  | n :: seg :: segs, isDir, content =>
    forestSet cs n (.dir (insertEntry
      (match forestFind cs n with
       | some (FTree.dir gs) => gs
       | _ => .nil) (seg :: segs) isDir content))

/-- `ZipFile.extractall`: materialize every entry, in order, under an
extraction root. -/
def extractEntries (es : List Entry) : FForest :=
  es.foldl (fun cs e => insertEntry cs (csSplit ['/'] e.relpath) e.isDir e.content)
    FForest.nil

/-- `target.is_dir()` on the modelled slice. -/
def isDirAt (o : Option FTree) : Bool :=
  match o with
  | some (FTree.dir _) => true
  | _ => false

/-- `target.is_file()` on the modelled slice. -/
def isFileAt (o : Option FTree) : Bool :=
  match o with
  | some (FTree.file _) => true
  | _ => false

/-- `restore_backup` acts on the restore target path.  The slice of the
file system it can observe or change is the target's current state plus
whether the target's parent directory exists; this structure carries that
slice.  `targetName` is `Path(target).name`, used when a file-type archive
is extracted into the parent directory. -/
structure RestoreState where
  parentExists : Bool
  targetName : Str
  current : Option FTree

/-- `BackupManager.restore_backup` (lines 385-427) on the restore slice:
parent check, content-type conflict check, then the folder branch (clear,
recreate, extract into the target — note the directory is recreated before
the format check) or the file branch (unlink, extract into the parent, so
the target path afterwards holds the entry bearing its own name, if any),
else the unexpected-content-type error.  `restore_zip_archive` extracts
everything and then removes the extracted `.yabu.meta`; the metadata is
carried separately from the entries here, so extraction of the content
entries models that composite.  Returns the new slice and the exception
raised, if any. -/
def restore_backup (st : RestoreState) (b : Backup) (ar : Archive) :
    RestoreState × Option Err :=
  if st.parentExists = false then
    (st, some (.fileNotFound st.targetName))
  else if (isDirAt st.current = true ∧ b.content_type = ['f', 'i', 'l', 'e']) ∨
      (isFileAt st.current = true ∧
        b.content_type = ['f', 'o', 'l', 'd', 'e', 'r']) then
    (st, some (.contentType b.content_type))
  else if b.content_type = ['f', 'o', 'l', 'd', 'e', 'r'] then
    if pySuffix b.path = ['.', 'z', 'i', 'p'] then
      ({ st with current := some (.dir (extractEntries ar.entries)) }, none)
    else
      ({ st with current := some (.dir .nil) }, some (.format (pySuffix b.path)))
  else if b.content_type = ['f', 'i', 'l', 'e'] then
    if pySuffix b.path = ['.', 'z', 'i', 'p'] then
      ({ st with current := forestFind (extractEntries ar.entries) st.targetName },
        none)
    else
      (st, some (.format (pySuffix b.path)))
  else
    (st, some (.contentType b.content_type))

/-! ### `Destination.__init__` (`controller/destination.py` lines 9-21) -/

/-- The property setters run in `__init__` assignment order: `path` must
exist and be a directory, `date_format` and `name_separator` are only
`isinstance(•, str)`-checked (always true for a `Str`), `max_backup_count`
must be a positive integer, and `file_format` must be a known format.
No setter inspects the separator's relation to stems or timestamps. -/
def destinationInit (pathExists pathIsDir : Bool) (path : Str)
    (date_format name_separator : Str) (max_backup_count : Int)
    (file_format : Str) : Except Err Destination :=
  if pathExists = false then .error (.fileNotFound path)
  else if pathIsDir = false then .error (.valueError path)
  else if max_backup_count ≤ 0 then .error (.valueError ['c', 'o', 'u', 'n', 't'])
  else if file_format ≠ ['z', 'i', 'p'] then .error (.valueError file_format)
  else .ok ⟨path, date_format, name_separator, max_backup_count.toNat, file_format⟩

/-! ### The spec's description of the content hash -/

/-- Modelled from the spec: the missing counterpart definition for claim
comparison — "Compute `content_hash` of the target: for a file, hash its
bytes; for a directory, hash the concatenation of the contents of every
regular file found by a full recursive walk" (spec section 4.2 step 1).
The digest is modelled, as for `md5`, as an injective function (here the
identity) of the hashed bytes. -/
def specContentDigest (tr : FTree) : Bytes :=
  match tr with
  | .file c => c
  | .dir cs =>
    ((flattenForest [] cs).filter (fun e => e.isDir = false)).foldl
      (fun acc e => acc ++ e.content) []

/-! ### The canonical shapes occurring in a creation run

For a fixed target `t` (with tree `tr`), destination `d` and clock, the
engine names and writes the same shapes at every tick; these definitions
name them once. -/

/-- `Path(target).stem` as used for archive names. -/
def stemOf (t : Str) : Str := pyStem (lastComponent t)

/-- The timestamp rendered at tick `i`. -/
def tsOf (d : Destination) (clock : Nat → DateTime) (i : Nat) : Str :=
  strftime (clock i) d.date_format

/-- The archive file name created at tick `i`. -/
def fnameAt (t : Str) (d : Destination) (clock : Nat → DateTime) (i : Nat) : Str :=
  (stemOf t ++ d.name_separator ++ tsOf d clock i) ++ ['.', 'z', 'i', 'p']

/-- The content entries archived from `t`. -/
def entriesOf (t : Str) (tr : FTree) : List Entry :=
  mkEntries (lastComponent t) tr

/-- The metadata record the engine embeds for `t`. -/
def metaOf (t : Str) (tr : FTree) (d : Destination) : Metadata :=
  ⟨t, d.name_separator, d.date_format, md5 (entriesOf t tr), get_content_type tr⟩

/-- The archive the engine writes for `t` (identical at every tick). -/
def arOf (t : Str) (tr : FTree) (d : Destination) : Archive :=
  ⟨entriesOf t tr, some (metaOf t tr d)⟩

/-- The `Backup` descriptor reconstructed from the archive of tick `i`. -/
def bkAt (t : Str) (tr : FTree) (d : Destination) (clock : Nat → DateTime)
    (i : Nat) : Backup :=
  ⟨stemOf t, d.path ++ '/' :: fnameAt t d clock i, d.date_format,
    d.name_separator, t, clock i, md5 (entriesOf t tr), get_content_type tr⟩

/-- The file system holding exactly the archives of the ticks in `L`
(in directory order) for the pair `(t, d)`, plus the target tree. -/
def mkCreateFS (t : Str) (tr : FTree) (d : Destination) (clock : Nat → DateTime)
    (L : List Nat) : FS :=
  ⟨[(d.path, L.map (fun i => (fnameAt t d clock i, arOf t tr d)))], [(t, tr)]⟩

/-- A preset with a single (target, destination) pair. -/
def singlePreset (nm t : Str) (d : Destination) : Preset := ⟨nm, [t], [d]⟩

/-- Well-formedness of the naming scheme for the pair `(t, d)` under the
given clock, for ticks below `N`: the destination uses the zip codec and a
positive retention count; the separator is nonempty and splits every
archive stem unambiguously back into stem and timestamp (the spec's
separator invariant); every rendered timestamp parses back to the clock's
value; and the clock is strictly increasing.  All conditions are
decidable, so concrete instances are checked by evaluation. -/
def goodNaming (t : Str) (d : Destination) (clock : Nat → DateTime) (N : Nat) : Prop :=
  d.file_format = ['z', 'i', 'p'] ∧
  1 ≤ d.max_backup_count ∧
  d.name_separator ≠ [] ∧
  stemOf t ≠ [] ∧
  (stemOf t).head? ≠ some '.' ∧
  (∀ i, i < N →
    csSplit d.name_separator (stemOf t ++ d.name_separator ++ tsOf d clock i) =
      [stemOf t, tsOf d clock i]) ∧
  (∀ i, i < N → strptime d.date_format (tsOf d clock i) = some (clock i)) ∧
  (∀ i, i < N → ∀ j, j < N → i < j → dtLt (clock i) (clock j) = true)

instance (t : Str) (d : Destination) (clock : Nat → DateTime) (N : Nat) :
    Decidable (goodNaming t d clock N) := by
  unfold goodNaming; infer_instance

/-- The state after `n` complete runs of `create_backups(preset, force=True,
keep=False)`, starting from the file system `fs0` at tick `0`. -/
def afterCalls (clock : Nat → DateTime) (p : Preset) (fs0 : FS) : Nat → FS × Nat
  | 0 => (fs0, 0)
  | n + 1 =>
    let st := afterCalls clock p fs0 n
    let r := create_backups clock true false p st.1 st.2
    (r.fs, r.tick)

/-! ### Concrete instances used by the witnesses -/

/-- Witness target path. -/
def tW : Str := "/tmp/data.txt".data

/-- Witness target tree: a small regular file. -/
def trW : FTree := .file "hello".data

/-- Witness destination: retention count 2, zip format, `%S` timestamps. -/
def dW : Destination := ⟨"/bk".data, "%S".data, "-".data, 2, "zip".data⟩

/-- Witness clock: strictly increasing, seconds only, zero microseconds,
so that `%S` round-trips exactly. -/
def clkW : Nat → DateTime := fun i => ⟨1900, 1, 1, 0, 0, i, 0⟩

/-- Witness preset name. -/
def nmW : Str := "p".data

/-- A destination identical to `dW` but with retention count `1`. -/
def dW1 : Destination := ⟨"/bk".data, "%S".data, "-".data, 1, "zip".data⟩

/-- First forced creation run against `dW1`. -/
def c2runA : RunResult :=
  create_backups clkW true false (singlePreset nmW tW dW1)
    (mkCreateFS tW trW dW1 clkW []) 0

/-- Second forced creation run against `dW1`. -/
def c2runB : RunResult :=
  create_backups clkW true false (singlePreset nmW tW dW1) c2runA.fs c2runA.tick

/-- Concrete restore slice: the target currently holds a directory with
one file in it. -/
def stC6 : RestoreState :=
  ⟨true, "data.txt".data, some (.dir (.cons "a".data (.file "x".data) .nil))⟩

/-- The repository's default timestamp format. -/
def fmtDefault : Str := "%Y_%m_%d__%H%M%S".data

/-- Second witness target for the two-pair preset. -/
def t2W : Str := "/tmp/other.txt".data

/-- A preset with two targets sharing one destination. -/
def pC5 : Preset := ⟨nmW, [tW, t2W], [dW]⟩

/-- A file system whose destination holds a foreign `.zip` without the
embedded metadata record; both targets exist. -/
def fsC5 : FS :=
  ⟨[("/bk".data, [("junk.zip".data, ⟨[], none⟩)])],
   [(tW, trW), (t2W, trW)]⟩

/-- One full consumption of `create_backups` over `pC5` against `fsC5`. -/
def c5run : RunResult := create_backups clkW false false pC5 fsC5 0

/-- A directory holding `a.txt` with bytes `"xy"`. -/
def trA : FTree := .dir (.cons "a.txt".data (.file "xy".data) .nil)

/-- A directory holding `b.txt` with the same bytes `"xy"`. -/
def trB : FTree := .dir (.cons "b.txt".data (.file "xy".data) .nil)

/-- The valid archive and the malformed `.zip` side by side in one
destination directory. -/
def fsC4 : FS :=
  ⟨[("/bk".data, [(fnameAt tW dW clkW 0, arOf tW trW dW),
    ("junk.zip".data, ⟨[], none⟩)])], [(tW, trW)]⟩

/-- Witness directory target. -/
def tDirW : Str := "/tmp/proj".data

/-- Witness directory tree with one file in it. -/
def trDirW : FTree := .dir (.cons "a.txt".data (.file "x".data) .nil)

/-- One creation run over the directory target. -/
def c7run : RunResult :=
  create_backups clkW false false (singlePreset nmW tDirW dW)
    (mkCreateFS tDirW trDirW dW clkW []) 0

/-! ### Order facts about dates and backups -/

lemma dtLe_refl (a : DateTime) : dtLe a a = true := by
  simp [dtLe]

lemma dtLe_trans {a b c : DateTime} (h1 : dtLe a b = true) (h2 : dtLe b c = true) :
    dtLe a c = true := by
  simp only [dtLe, decide_eq_true_iff] at *
  exact le_trans h1 h2

lemma dtLe_total (a b : DateTime) : dtLe a b = true ∨ dtLe b a = true := by
  simp only [dtLe, decide_eq_true_iff]
  exact le_total _ _

lemma dtLt_irrefl (a : DateTime) : dtLt a a = false := by
  simp [dtLt, dtLe]

lemma dtLt_le {a b : DateTime} (h : dtLt a b = true) : dtLe a b = true := by
  simp only [dtLt, dtLe, Bool.not_eq_true', decide_eq_false_iff_not, not_le,
    decide_eq_true_iff] at *
  exact le_of_lt h

instance : IsTotal Backup backupDateLe :=
  ⟨fun a b => dtLe_total a.date b.date⟩

instance : IsTrans Backup backupDateLe :=
  ⟨fun _ _ _ h1 h2 => dtLe_trans h1 h2⟩

/-! ### Facts about the string and path primitives -/

lemma splitLastDot_of_not_mem {s : Str} (h : '.' ∉ s) : splitLastDot s = none := by
  induction s with
  | nil => rfl
  | cons c cs ih =>
    simp only [List.mem_cons, not_or] at h
    simp [splitLastDot, ih h.2, if_neg (Ne.symm h.1)]

lemma splitLastDot_append {a b : Str} (hb : '.' ∉ b) :
    splitLastDot (a ++ '.' :: b) = some (a, b) := by
  induction a with
  | nil => simp [splitLastDot, splitLastDot_of_not_mem hb]
  | cons c cs ih => simp [splitLastDot, ih]

lemma pyStem_append {a b : Str} (ha : a ≠ []) (hb : '.' ∉ b) (hb' : b ≠ []) :
    pyStem (a ++ '.' :: b) = a := by
  simp [pyStem, splitLastDot_append hb, ha, hb']

lemma pySuffix_append {a b : Str} (ha : a ≠ []) (hb : '.' ∉ b) (hb' : b ≠ []) :
    pySuffix (a ++ '.' :: b) = '.' :: b := by
  simp [pySuffix, splitLastDot_append hb, ha, hb']

lemma pyStem_append_zip {a : Str} (ha : a ≠ []) :
    pyStem (a ++ ['.', 'z', 'i', 'p']) = a :=
  pyStem_append ha (by decide) (by decide)

lemma pySuffix_append_zip {a : Str} (ha : a ≠ []) :
    pySuffix (a ++ ['.', 'z', 'i', 'p']) = ['.', 'z', 'i', 'p'] :=
  pySuffix_append ha (by decide) (by decide)

lemma globZipMatch_append {a : Str} (ha : a ≠ []) (hd : a.head? ≠ some '.') :
    globZipMatch (a ++ ['.', 'z', 'i', 'p']) = true := by
  cases a with
  | nil => exact absurd rfl ha
  | cons c cs =>
    simp only [List.head?_cons, ne_eq, Option.some.injEq] at hd
    have hsuf : List.isSuffixOf ['.', 'z', 'i', 'p'] (c :: (cs ++ ['.', 'z', 'i', 'p'])) = true :=
      List.isSuffixOf_iff_suffix.mpr ⟨c :: cs, by simp⟩
    simp [globZipMatch, hsuf, hd]

/-- Reading back the archive written at tick `i` yields exactly the
descriptor `bkAt i`. -/
lemma get_backup_from_file_at (t : Str) (tr : FTree) (d : Destination)
    (clock : Nat → DateTime) (N i : Nat) (hg : goodNaming t d clock N)
    (hi : i < N) :
    get_backup_from_file d.path (fnameAt t d clock i) (arOf t tr d) =
      .ok (some (bkAt t tr d clock i)) := by
  obtain ⟨_, _, hsep, hstem, _, hsplit, hparse, _⟩ := hg
  have hne : stemOf t ++ d.name_separator ++ tsOf d clock i ≠ [] := by
    cases h : stemOf t with
    | nil => exact absurd h hstem
    | cons c cs => simp [h]
  unfold get_backup_from_file fnameAt
  rw [pySuffix_append_zip hne, if_pos rfl, pyStem_append_zip hne]
  simp only [arOf, metaOf]
  unfold pySplit
  rw [if_neg hsep, hsplit i hi]
  simp only [bind, Except.bind, pyIndex, List.getElem?_cons_zero, List.getElem?_cons_succ]
  rw [hparse i hi]
  simp [bkAt, fnameAt, metaOf]

lemma dirFiles_mkCreateFS (t : Str) (tr : FTree) (d : Destination)
    (clock : Nat → DateTime) (L : List Nat) :
    (mkCreateFS t tr d clock L).dirFiles d.path =
      L.map (fun i => (fnameAt t d clock i, arOf t tr d)) := by
  simp [FS.dirFiles, mkCreateFS, List.find?]

lemma treeAt_mkCreateFS (t : Str) (tr : FTree) (d : Destination)
    (clock : Nat → DateTime) (L : List Nat) :
    (mkCreateFS t tr d clock L).treeAt t = some tr := by
  simp [FS.treeAt, mkCreateFS, List.find?]

lemma dirExists_mkCreateFS (t : Str) (tr : FTree) (d : Destination)
    (clock : Nat → DateTime) (L : List Nat) :
    (mkCreateFS t tr d clock L).dirExists d.path = true := by
  simp [FS.dirExists, mkCreateFS, List.find?]

lemma fnameAt_ne_nil {t : Str} {d : Destination} {clock : Nat → DateTime}
    (hstem : stemOf t ≠ []) (i : Nat) :
    stemOf t ++ d.name_separator ++ tsOf d clock i ≠ [] := by
  cases h : stemOf t with
  | nil => exact absurd h hstem
  | cons c cs => simp [h]

lemma globZipMatch_fnameAt {t : Str} {d : Destination} {clock : Nat → DateTime}
    (hstem : stemOf t ≠ []) (hhead : (stemOf t).head? ≠ some '.') (i : Nat) :
    globZipMatch (fnameAt t d clock i) = true := by
  unfold fnameAt
  apply globZipMatch_append (fnameAt_ne_nil hstem i)
  cases h : stemOf t with
  | nil => exact absurd h hstem
  | cons c cs =>
    rw [h] at hhead
    simpa using hhead

lemma glob_filter_eval (t : Str) (tr : FTree) (d : Destination)
    (clock : Nat → DateTime) (L : List Nat)
    (hstem : stemOf t ≠ []) (hhead : (stemOf t).head? ≠ some '.') :
    (L.map (fun i => (fnameAt t d clock i, arOf t tr d))).filter
        (fun f => globZipMatch f.1) =
      L.map (fun i => (fnameAt t d clock i, arOf t tr d)) := by
  apply List.filter_eq_self.mpr
  intro a ha
  obtain ⟨i, _, rfl⟩ := List.mem_map.mp ha
  exact globZipMatch_fnameAt hstem hhead i

lemma collectBackups_eval (t : Str) (tr : FTree) (d : Destination)
    (clock : Nat → DateTime) (N : Nat) (hg : goodNaming t d clock N)
    (L : List Nat) (hL : ∀ i ∈ L, i < N) :
    collectBackups d.path (L.map (fun i => (fnameAt t d clock i, arOf t tr d))) =
      .ok (L.map (bkAt t tr d clock)) := by
  induction L with
  | nil => rfl
  | cons i rest ih =>
    simp only [List.map_cons, collectBackups]
    rw [get_backup_from_file_at t tr d clock N i hg (hL i (by simp))]
    rw [ih (fun j hj => hL j (by simp [hj]))]

lemma sorted_map_bkAt (t : Str) (tr : FTree) (d : Destination)
    (clock : Nat → DateTime) (N : Nat) (hg : goodNaming t d clock N)
    (L : List Nat) (hL : ∀ i ∈ L, i < N) (hasc : List.Pairwise (· < ·) L) :
    List.Sorted backupDateLe (L.map (bkAt t tr d clock)) := by
  obtain ⟨_, _, _, _, _, _, _, hmono⟩ := hg
  unfold List.Sorted
  rw [List.pairwise_map]
  refine hasc.imp_of_mem ?_
  intro i j hi hj hij
  exact dtLt_le (hmono i (hL i hi) j (hL j hj) hij)

lemma get_destination_backups_eval (t : Str) (tr : FTree) (d : Destination)
    (clock : Nat → DateTime) (N : Nat) (hg : goodNaming t d clock N)
    (L : List Nat) (hL : ∀ i ∈ L, i < N) (hasc : List.Pairwise (· < ·) L) :
    get_destination_backups (mkCreateFS t tr d clock L) d =
      .ok (L.map (bkAt t tr d clock)) := by
  have hfmt := hg.1
  have hstem := hg.2.2.2.1
  have hhead := hg.2.2.2.2.1
  unfold get_destination_backups
  rw [if_pos hfmt, dirFiles_mkCreateFS, glob_filter_eval t tr d clock L hstem hhead,
    collectBackups_eval t tr d clock N hg L hL]
  show Except.ok (List.insertionSort backupDateLe (L.map (bkAt t tr d clock))) = _
  rw [(sorted_map_bkAt t tr d clock N hg L hL hasc).insertionSort_eq]

lemma get_backups_of_target_eval (t : Str) (tr : FTree) (d : Destination)
    (clock : Nat → DateTime) (N : Nat) (hg : goodNaming t d clock N)
    (L : List Nat) (hL : ∀ i ∈ L, i < N) (hasc : List.Pairwise (· < ·) L) :
    get_backups_of_target (mkCreateFS t tr d clock L) t d =
      .ok (L.map (bkAt t tr d clock)) := by
  unfold get_backups_of_target
  rw [get_destination_backups_eval t tr d clock N hg L hL hasc]
  show Except.ok ((L.map (bkAt t tr d clock)).filter (fun b => b.target = t)) = _
  congr 1
  apply List.filter_eq_self.mpr
  intro a ha
  obtain ⟨i, _, rfl⟩ := List.mem_map.mp ha
  simp [bkAt]

lemma get_latest_backup_eval (t : Str) (tr : FTree) (d : Destination)
    (clock : Nat → DateTime) (N : Nat) (hg : goodNaming t d clock N)
    (L : List Nat) (hL : ∀ i ∈ L, i < N) (hasc : List.Pairwise (· < ·) L) :
    get_latest_backup (mkCreateFS t tr d clock L) (.dest d) (some t) =
      .ok (L.getLast?.map (bkAt t tr d clock)) := by
  unfold get_latest_backup get_backups
  show (match get_backups_of_target (mkCreateFS t tr d clock L) t d with
    | Except.error e => Except.error e
    | Except.ok bs => Except.ok bs.getLast?) = _
  rw [get_backups_of_target_eval t tr d clock N hg L hL hasc]
  show Except.ok ((L.map (bkAt t tr d clock)).getLast?) = _
  rw [List.getLast?_map]

lemma clock_inj (t : Str) (d : Destination) (clock : Nat → DateTime) (N : Nat)
    (hg : goodNaming t d clock N) {i j : Nat} (hi : i < N) (hj : j < N)
    (h : clock i = clock j) : i = j := by
  have hmono := hg.2.2.2.2.2.2.2
  rcases Nat.lt_trichotomy i j with hlt | heq | hgt
  · have := hmono i hi j hj hlt
    rw [h] at this
    rw [dtLt_irrefl] at this
    exact absurd this (by simp)
  · exact heq
  · have := hmono j hj i hi hgt
    rw [h] at this
    rw [dtLt_irrefl] at this
    exact absurd this (by simp)

lemma fnameAt_inj (t : Str) (d : Destination) (clock : Nat → DateTime) (N : Nat)
    (hg : goodNaming t d clock N) {i j : Nat} (hi : i < N) (hj : j < N)
    (h : fnameAt t d clock i = fnameAt t d clock j) : i = j := by
  have hparse := hg.2.2.2.2.2.2.1
  unfold fnameAt at h
  have h1 := List.append_cancel_right h
  have h2 := List.append_cancel_left h1
  have h3 : strptime d.date_format (tsOf d clock j) = some (clock i) := by
    rw [← h2]; exact hparse i hi
  rw [hparse j hj] at h3
  exact clock_inj t d clock N hg hi hj (Option.some_inj.mp h3).symm

lemma writeFile_mkCreateFS (t : Str) (tr : FTree) (d : Destination)
    (clock : Nat → DateTime) (N : Nat) (hg : goodNaming t d clock N)
    (L : List Nat) (hL : ∀ i ∈ L, i < N) {m : Nat} (hm : m < N) (hnm : m ∉ L) :
    (mkCreateFS t tr d clock L).writeFile d.path (fnameAt t d clock m) (arOf t tr d) =
      mkCreateFS t tr d clock (L ++ [m]) := by
  unfold FS.writeFile mkCreateFS
  have key : (L.map (fun i => (fnameAt t d clock i, arOf t tr d))).filter
      (fun f => f.1 ≠ fnameAt t d clock m) =
      L.map (fun i => (fnameAt t d clock i, arOf t tr d)) := by
    apply List.filter_eq_self.mpr
    intro a ha
    obtain ⟨i, hiL, rfl⟩ := List.mem_map.mp ha
    simp only [ne_eq, decide_not, Bool.not_eq_eq_eq_not, Bool.not_true,
      decide_eq_false_iff_not]
    intro hfe
    exact hnm (fnameAt_inj t d clock N hg (hL i hiL) hm hfe ▸ hiL)
  simp only [List.map_cons, List.map_nil, List.map_append, key]
  simp

lemma unlink_mkCreateFS (t : Str) (tr : FTree) (d : Destination)
    (clock : Nat → DateTime) (N : Nat) (hg : goodNaming t d clock N)
    (L : List Nat) (hL : ∀ i ∈ L, i < N) {j : Nat} (hj : j < N) :
    (mkCreateFS t tr d clock L).unlink (d.path ++ '/' :: fnameAt t d clock j) =
      mkCreateFS t tr d clock (L.filter (fun i => i ≠ j)) := by
  unfold FS.unlink mkCreateFS
  have key : (L.map (fun i => (fnameAt t d clock i, arOf t tr d))).filter
      (fun f => !decide (f.1 = fnameAt t d clock j)) =
      (L.filter (fun i => !decide (i = j))).map
        (fun i => (fnameAt t d clock i, arOf t tr d)) := by
    rw [List.filter_map]
    congr 1
    apply List.filter_congr
    intro i hiL
    by_cases hij : i = j
    · subst hij; simp
    · have h1 : fnameAt t d clock i ≠ fnameAt t d clock j := by
        intro hfe
        exact hij (fnameAt_inj t d clock N hg (hL i hiL) hj hfe)
      simp [Function.comp, h1, hij]
  simp [key]

lemma get_delete_candidates_eval (t : Str) (tr : FTree) (d : Destination)
    (clock : Nat → DateTime) (N : Nat) (hg : goodNaming t d clock N)
    (L : List Nat) (hL : ∀ i ∈ L, i < N) (hasc : List.Pairwise (· < ·) L) :
    get_delete_candidates (mkCreateFS t tr d clock L) t d =
      .ok (if d.max_backup_count < L.length then
        (L.map (bkAt t tr d clock)).take (L.length - d.max_backup_count)
      else []) := by
  unfold get_delete_candidates get_backups
  show (match get_destination_backups (mkCreateFS t tr d clock L) d with
    | Except.error e => Except.error e
    | Except.ok bs =>
      let target_backups := bs.filter (fun (b : Backup) => b.target = t)
      if target_backups.length > d.max_backup_count then
        Except.ok (target_backups.take (target_backups.length - d.max_backup_count))
      else Except.ok []) = _
  rw [get_destination_backups_eval t tr d clock N hg L hL hasc]
  have hfil : (L.map (bkAt t tr d clock)).filter (fun b => b.target = t) =
      L.map (bkAt t tr d clock) := by
    apply List.filter_eq_self.mpr
    intro a ha
    obtain ⟨i, _, rfl⟩ := List.mem_map.mp ha
    simp [bkAt]
  show (let target_backups :=
      (L.map (bkAt t tr d clock)).filter (fun (b : Backup) => b.target = t)
    if target_backups.length > d.max_backup_count then
      (Except.ok (target_backups.take (target_backups.length - d.max_backup_count)) :
        Except Err (List Backup))
    else Except.ok []) = _
  simp only [hfil, List.length_map, gt_iff_lt]
  split_ifs with hbr
  · rfl
  · rfl

lemma delete_old_backups_small (t : Str) (tr : FTree) (d : Destination)
    (clock : Nat → DateTime) (N : Nat) (hg : goodNaming t d clock N)
    (L : List Nat) (hL : ∀ i ∈ L, i < N) (hasc : List.Pairwise (· < ·) L)
    (hlen : L.length ≤ d.max_backup_count) :
    delete_old_backups (mkCreateFS t tr d clock L) t d =
      .ok (mkCreateFS t tr d clock L) := by
  unfold delete_old_backups
  rw [get_delete_candidates_eval t tr d clock N hg L hL hasc, if_neg (by omega)]
  rfl

lemma delete_old_backups_rotate (t : Str) (tr : FTree) (d : Destination)
    (clock : Nat → DateTime) (N : Nat) (hg : goodNaming t d clock N)
    (i0 : Nat) (rest : List Nat) (hL : ∀ i ∈ i0 :: rest, i < N)
    (hasc : List.Pairwise (· < ·) (i0 :: rest))
    (hlen : rest.length = d.max_backup_count) :
    delete_old_backups (mkCreateFS t tr d clock (i0 :: rest)) t d =
      .ok (mkCreateFS t tr d clock rest) := by
  unfold delete_old_backups
  rw [get_delete_candidates_eval t tr d clock N hg (i0 :: rest) hL hasc,
    if_pos (by simp [hlen])]
  have htake : (i0 :: rest).length - d.max_backup_count = 1 := by
    simp [hlen]
  rw [htake]
  show Except.ok (List.foldl (fun f b => f.unlink b.path)
    (mkCreateFS t tr d clock (i0 :: rest)) [bkAt t tr d clock i0]) = _
  show Except.ok ((mkCreateFS t tr d clock (i0 :: rest)).unlink
    (d.path ++ '/' :: fnameAt t d clock i0)) = _
  rw [unlink_mkCreateFS t tr d clock N hg (i0 :: rest) hL (hL i0 (by simp))]
  have hfil : (i0 :: rest).filter (fun i => i ≠ i0) = rest := by
    rw [List.filter_cons]
    simp only [ne_eq, decide_not, decide_eq_true_eq, not_true, Bool.not_true,
      if_neg (by simp : ¬ (!decide (i0 = i0)) = true)]
    apply List.filter_eq_self.mpr
    intro a ha
    have : i0 < a := (List.pairwise_cons.mp hasc).1 a ha
    simp
    omega
  rw [hfil]

lemma create_zip_archive_at (t : Str) (tr : FTree) (d : Destination)
    (clock : Nat → DateTime) (m : Nat) :
    create_zip_archive
        (pyStem (lastComponent t) ++ d.name_separator ++
          strftime (clock m) d.date_format) t (lastComponent t) tr d =
      (fnameAt t d clock m, arOf t tr d) := rfl

lemma processPair_fresh_small (t : Str) (tr : FTree) (d : Destination)
    (clock : Nat → DateTime) (N : Nat) (hg : goodNaming t d clock N)
    (force keep : Bool) (L : List Nat) (m : Nat) (hm : m < N)
    (hLm : ∀ i ∈ L, i < m) (hasc : List.Pairwise (· < ·) L)
    (hforce : force = true ∨ L = []) (hkeep : keep = false)
    (hlen : L.length < d.max_backup_count) :
    processPair clock force keep (mkCreateFS t tr d clock L) m t d =
      .ok (.backup (bkAt t tr d clock m), mkCreateFS t tr d clock (L ++ [m]), m + 1) := by
  have hLN : ∀ i ∈ L, i < N := fun i hi => lt_trans (hLm i hi) hm
  have hmnot : m ∉ L := fun hmem => lt_irrefl m (hLm m hmem)
  have hascm : List.Pairwise (· < ·) (L ++ [m]) := by
    rw [List.pairwise_append]
    exact ⟨hasc, List.pairwise_singleton _ _, fun a ha b hb => by
      simp only [List.mem_singleton] at hb; subst hb; exact hLm a ha⟩
  have hLNm : ∀ i ∈ L ++ [m], i < N := by
    intro i hi
    rcases List.mem_append.mp hi with h | h
    · exact hLN i h
    · simp only [List.mem_singleton] at h; subst h; exact hm
  unfold processPair
  rw [get_latest_backup_eval t tr d clock N hg L hLN hasc]
  dsimp only
  rw [treeAt_mkCreateFS]
  dsimp only
  rw [dirExists_mkCreateFS]
  simp only [Bool.true_eq_false, if_false, if_pos hg.1]
  rw [create_zip_archive_at]
  dsimp only
  rw [writeFile_mkCreateFS t tr d clock N hg L hLN hm hmnot,
    get_backup_from_file_at t tr d clock N m hg hm]
  dsimp only
  rw [if_neg ?hdup]
  case hdup =>
    rcases hforce with hf | hf
    · subst hf; simp
    · subst hf; simp
  rw [if_pos hkeep,
    delete_old_backups_small t tr d clock N hg (L ++ [m]) hLNm hascm
      (by simp; omega)]

lemma processPair_fresh_rotate (t : Str) (tr : FTree) (d : Destination)
    (clock : Nat → DateTime) (N : Nat) (hg : goodNaming t d clock N)
    (force keep : Bool) (i0 : Nat) (rest : List Nat) (m : Nat) (hm : m < N)
    (hLm : ∀ i ∈ i0 :: rest, i < m)
    (hasc : List.Pairwise (· < ·) (i0 :: rest))
    (hforce : force = true) (hkeep : keep = false)
    (hlen : (i0 :: rest).length = d.max_backup_count) :
    processPair clock force keep (mkCreateFS t tr d clock (i0 :: rest)) m t d =
      .ok (.backup (bkAt t tr d clock m),
        mkCreateFS t tr d clock (rest ++ [m]), m + 1) := by
  have hLN : ∀ i ∈ i0 :: rest, i < N := fun i hi => lt_trans (hLm i hi) hm
  have hmnot : m ∉ i0 :: rest := fun hmem => lt_irrefl m (hLm m hmem)
  have hascm : List.Pairwise (· < ·) ((i0 :: rest) ++ [m]) := by
    rw [List.pairwise_append]
    exact ⟨hasc, List.pairwise_singleton _ _, fun a ha b hb => by
      simp only [List.mem_singleton] at hb; subst hb; exact hLm a ha⟩
  have hLNm : ∀ i ∈ (i0 :: rest) ++ [m], i < N := by
    intro i hi
    rcases List.mem_append.mp hi with h | h
    · exact hLN i h
    · simp only [List.mem_singleton] at h; subst h; exact hm
  unfold processPair
  rw [get_latest_backup_eval t tr d clock N hg (i0 :: rest) hLN hasc]
  dsimp only
  rw [treeAt_mkCreateFS]
  dsimp only
  rw [dirExists_mkCreateFS]
  simp only [Bool.true_eq_false, if_false, if_pos hg.1]
  rw [create_zip_archive_at]
  dsimp only
  rw [writeFile_mkCreateFS t tr d clock N hg (i0 :: rest) hLN hm hmnot,
    get_backup_from_file_at t tr d clock N m hg hm]
  dsimp only
  rw [if_neg ?hdup]
  case hdup => subst hforce; simp
  have hshape : (i0 :: rest) ++ [m] = i0 :: (rest ++ [m]) := by simp
  rw [if_pos hkeep, hshape,
    delete_old_backups_rotate t tr d clock N hg i0 (rest ++ [m])
      (hshape ▸ hLNm) (hshape ▸ hascm)
      (by simpa using hlen)]

lemma processPair_dup (t : Str) (tr : FTree) (d : Destination)
    (clock : Nat → DateTime) (N : Nat) (hg : goodNaming t d clock N)
    (keep : Bool) (L0 : List Nat) (j m : Nat) (hm : m < N)
    (hLm : ∀ i ∈ L0 ++ [j], i < m)
    (hasc : List.Pairwise (· < ·) (L0 ++ [j])) :
    processPair clock false keep (mkCreateFS t tr d clock (L0 ++ [j])) m t d =
      .ok (.err (.backupHash (d.path ++ '/' :: fnameAt t d clock j)),
        mkCreateFS t tr d clock (L0 ++ [j]), m + 1) := by
  have hLN : ∀ i ∈ L0 ++ [j], i < N := fun i hi => lt_trans (hLm i hi) hm
  have hmnot : m ∉ L0 ++ [j] := fun hmem => lt_irrefl m (hLm m hmem)
  have hascm : List.Pairwise (· < ·) ((L0 ++ [j]) ++ [m]) := by
    rw [List.pairwise_append]
    exact ⟨hasc, List.pairwise_singleton _ _, fun a ha b hb => by
      simp only [List.mem_singleton] at hb; subst hb; exact hLm a ha⟩
  have hLNm : ∀ i ∈ (L0 ++ [j]) ++ [m], i < N := by
    intro i hi
    rcases List.mem_append.mp hi with h | h
    · exact hLN i h
    · simp only [List.mem_singleton] at h; subst h; exact hm
  unfold processPair
  rw [get_latest_backup_eval t tr d clock N hg (L0 ++ [j]) hLN hasc]
  dsimp only
  rw [treeAt_mkCreateFS]
  dsimp only
  rw [dirExists_mkCreateFS]
  simp only [Bool.true_eq_false, if_false, if_pos hg.1]
  rw [create_zip_archive_at]
  dsimp only
  rw [writeFile_mkCreateFS t tr d clock N hg (L0 ++ [j]) hLN hm hmnot,
    get_backup_from_file_at t tr d clock N m hg hm]
  dsimp only
  rw [List.getLast?_concat]
  rw [if_pos ?hdup]
  case hdup =>
    exact ⟨by trivial, bkAt t tr d clock j, by trivial, rfl⟩
  show Except.ok (Item.err (Err.backupHash (bkAt t tr d clock j).path),
    (mkCreateFS t tr d clock ((L0 ++ [j]) ++ [m])).unlink
      (bkAt t tr d clock m).path, m + 1) = _
  show Except.ok (Item.err (Err.backupHash (d.path ++ '/' :: fnameAt t d clock j)),
    (mkCreateFS t tr d clock ((L0 ++ [j]) ++ [m])).unlink
      (d.path ++ '/' :: fnameAt t d clock m), m + 1) = _
  rw [unlink_mkCreateFS t tr d clock N hg ((L0 ++ [j]) ++ [m]) hLNm hm]
  have hfil : ((L0 ++ [j]) ++ [m]).filter (fun i => i ≠ m) = L0 ++ [j] := by
    rw [List.filter_append]
    have h1 : (L0 ++ [j]).filter (fun i => i ≠ m) = L0 ++ [j] := by
      apply List.filter_eq_self.mpr
      intro a ha
      have : a < m := hLm a ha
      simp
      omega
    have h2 : [m].filter (fun i => i ≠ m) = [] := by simp
    rw [h1, h2, List.append_nil]
  rw [hfil]

lemma create_backups_single (clock : Nat → DateTime) (force keep : Bool)
    (nm t : Str) (d : Destination) (fs : FS) (tick : Nat) :
    create_backups clock force keep (singlePreset nm t d) fs tick =
      match processPair clock force keep fs tick t d with
      | .error e => ⟨[], fs, tick, some e⟩
      | .ok (item, fs', tick') => ⟨[item], fs', tick', none⟩ := by
  cases h : processPair clock force keep fs tick t d with
  | error e => simp [create_backups, pairsOf, singlePreset, runPairs, h]
  | ok x =>
    obtain ⟨item, fs', tick'⟩ := x
    simp [create_backups, pairsOf, singlePreset, runPairs, h]

lemma range'_mem_lt (s len m : Nat) (hsum : s + len = m) :
    ∀ i ∈ List.range' s len, i < m := by
  intro i hi
  rw [List.mem_range'] at hi
  obtain ⟨j, hj, rfl⟩ := hi
  omega

lemma range'_concat_eq (s n m : Nat) (h : m = s + n) :
    List.range' s n ++ [m] = List.range' s (n + 1) := by
  subst h
  rw [List.range'_concat]
  simp

lemma afterCalls_invariant (t : Str) (tr : FTree) (d : Destination)
    (clock : Nat → DateTime) (N : Nat) (hg : goodNaming t d clock N)
    (nm : Str) (m : Nat) (hm : m ≤ N) :
    afterCalls clock (singlePreset nm t d) (mkCreateFS t tr d clock []) m =
      (mkCreateFS t tr d clock
        (List.range' (m - min m d.max_backup_count) (min m d.max_backup_count)),
       m) := by
  induction m with
  | zero => simp [afterCalls]
  | succ m ih =>
    have hmN : m < N := lt_of_lt_of_le (Nat.lt_succ_self m) hm
    have hstep := ih (le_of_lt hmN)
    set k := d.max_backup_count with hk
    have hk1 : 1 ≤ k := hg.2.1
    simp only [afterCalls]
    rw [hstep]
    dsimp only
    rw [create_backups_single]
    by_cases hcase : k ≤ m
    · -- the window is full: the oldest archive is rotated out
      have hmin : min m k = k := by omega
      have hmink : min (m + 1) k = k := by omega
      rw [hmin]
      have hsplit := List.range'_succ (m - k) (k - 1) 1
      rw [show k - 1 + 1 = k from by omega] at hsplit
      rw [show m - k + 1 * 1 = m - k + 1 from by omega] at hsplit
      rw [hsplit]
      rw [processPair_fresh_rotate t tr d clock N hg true false (m - k)
        (List.range' (m - k + 1) (k - 1)) m hmN
        (by rw [← hsplit]; exact range'_mem_lt _ _ _ (by omega))
        (by rw [← hsplit]; exact List.pairwise_lt_range' _ _)
        rfl rfl
        (by rw [← hsplit]; simp [List.length_range'])]
      dsimp only
      rw [hmink]
      rw [range'_concat_eq (m - k + 1) (k - 1) m (by omega)]
      rw [show k - 1 + 1 = k from by omega]
      rw [show m - k + 1 = m + 1 - k from by omega]
    · -- the window is not yet full: the new archive is simply appended
      have hmin : min m k = m := by omega
      have hmink : min (m + 1) k = m + 1 := by omega
      rw [hmin]
      have hzero : m - m = 0 := by omega
      rw [hzero]
      rw [processPair_fresh_small t tr d clock N hg true false
        (List.range' 0 m) m hmN
        (range'_mem_lt _ _ _ (by omega))
        (List.pairwise_lt_range' _ _)
        (Or.inl rfl) rfl
        (by simp; omega)]
      dsimp only
      rw [hmink]
      rw [range'_concat_eq 0 m m (by omega)]
      rw [show m + 1 - (m + 1) = 0 from Nat.sub_self _]

lemma get_destination_backups_sorted (fs : FS) (d : Destination)
    (bs : List Backup) (h : get_destination_backups fs d = .ok bs) :
    List.Sorted backupDateLe bs := by
  unfold get_destination_backups at h
  by_cases hf : d.file_format = ['z', 'i', 'p']
  · rw [if_pos hf] at h
    cases hcol : collectBackups d.path
        ((fs.dirFiles d.path).filter (fun f => globZipMatch f.1)) with
    | error e => rw [hcol] at h; exact absurd h (by simp)
    | ok bs0 =>
      rw [hcol] at h
      have : bs = List.insertionSort backupDateLe bs0 := by
        have := h
        simp only [Except.ok.injEq] at this
        exact this.symm
      rw [this]
      exact List.sorted_insertionSort backupDateLe bs0
  · rw [if_neg hf] at h
    exact absurd h (by simp)

/-- C1.  For every (target, destination) pair, after `N` backup creations
with destination `retention_count = k` (`max_backup_count`) and
`keep=false`, exactly `min(N, k)` archives for that pair remain in the
destination and they are the `k` most recent by date; and the delete
candidates for a pair are exactly the oldest `count - retention_count`
backups of that target taken from the list sorted ascending by date,
empty when the count does not exceed `retention_count`. -/
theorem C1_retention_and_delete_candidates :
    (∀ (fs : FS) (d : Destination) (t : Str) (bs : List Backup),
      get_destination_backups fs d = .ok bs →
      List.Sorted backupDateLe (bs.filter (fun b => b.target = t)) ∧
      get_delete_candidates fs t d =
        .ok (if (bs.filter (fun b => b.target = t)).length > d.max_backup_count then
          (bs.filter (fun b => b.target = t)).take
            ((bs.filter (fun b => b.target = t)).length - d.max_backup_count)
        else []) ∧
      ((bs.filter (fun b => b.target = t)).length ≤ d.max_backup_count →
        get_delete_candidates fs t d = .ok []) ∧
      (∀ a ∈ (bs.filter (fun b => b.target = t)).take
          ((bs.filter (fun b => b.target = t)).length - d.max_backup_count),
       ∀ b ∈ (bs.filter (fun b => b.target = t)).drop
          ((bs.filter (fun b => b.target = t)).length - d.max_backup_count),
        dtLe a.date b.date = true)) ∧
    (∀ (t : Str) (tr : FTree) (d : Destination) (clock : Nat → DateTime)
      (nm : Str) (N : Nat), goodNaming t d clock N →
      ((((afterCalls clock (singlePreset nm t d)
          (mkCreateFS t tr d clock []) N).1.dirFiles d.path).length =
        min N d.max_backup_count) ∧
       get_destination_backups
         (afterCalls clock (singlePreset nm t d)
           (mkCreateFS t tr d clock []) N).1 d =
         .ok ((List.range' (N - min N d.max_backup_count)
           (min N d.max_backup_count)).map (bkAt t tr d clock)) ∧
       (((List.range' (N - min N d.max_backup_count)
           (min N d.max_backup_count)).map (bkAt t tr d clock)).map
         (fun b => b.date)) =
         (List.range' (N - min N d.max_backup_count)
           (min N d.max_backup_count)).map clock)) := by
  constructor
  · intro fs d t bs h
    have hsorted := get_destination_backups_sorted fs d bs h
    have htb : List.Sorted backupDateLe (bs.filter (fun b => b.target = t)) :=
      List.Pairwise.filter _ hsorted
    refine ⟨htb, ?_, ?_, ?_⟩
    · unfold get_delete_candidates get_backups
      dsimp only
      rw [h]
      dsimp only
      split_ifs with hc <;> rfl
    · intro hle
      unfold get_delete_candidates get_backups
      dsimp only
      rw [h]
      dsimp only
      rw [if_neg (by omega)]
    · intro a ha b hb
      set tb := bs.filter (fun b => b.target = t) with htbdef
      set q := tb.length - d.max_backup_count with hq
      have hsplit2 := List.take_append_drop q tb
      have : List.Pairwise backupDateLe (tb.take q ++ tb.drop q) := by
        rw [hsplit2]; exact htb
      rw [List.pairwise_append] at this
      exact this.2.2 a ha b hb
  · intro t tr d clock nm N hg
    have hinv := afterCalls_invariant t tr d clock N hg nm N (le_refl N)
    have hfinal : (afterCalls clock (singlePreset nm t d)
        (mkCreateFS t tr d clock []) N).1 = mkCreateFS t tr d clock
        (List.range' (N - min N d.max_backup_count) (min N d.max_backup_count)) := by
      rw [hinv]
    have hLN : ∀ i ∈ List.range' (N - min N d.max_backup_count)
        (min N d.max_backup_count), i < N :=
      range'_mem_lt _ _ _ (by omega)
    refine ⟨?_, ?_, ?_⟩
    · rw [hfinal, dirFiles_mkCreateFS]
      simp [List.length_range']
    · rw [hfinal]
      exact get_destination_backups_eval t tr d clock N hg _ hLN
        (List.pairwise_lt_range' _ _)
    · rw [List.map_map]
      apply List.map_congr_left
      intro i _
      rfl

theorem C1_witness :
    goodNaming tW dW clkW 3 ∧
    get_destination_backups (mkCreateFS tW trW dW clkW []) dW = .ok [] ∧
    (((afterCalls clkW (singlePreset nmW tW dW)
      (mkCreateFS tW trW dW clkW []) 3).1.dirFiles dW.path).length =
      min 3 dW.max_backup_count) ∧
    get_delete_candidates (mkCreateFS tW trW dW clkW []) tW dW = .ok [] := by
  refine ⟨by decide, by decide, ?_, ?_⟩
  · exact (C1_retention_and_delete_candidates.2 tW trW dW clkW nmW 3 (by decide)).1
  · exact (C1_retention_and_delete_candidates.1 (mkCreateFS tW trW dW clkW [])
      dW tW [] (by decide)).2.2.1 (by decide)

/-- C2 (amended).  For every existing, unchanged target and existing
destination (with a well-formed naming scheme), calling `create_backups`
twice with `force=false` leaves exactly one archive on disk and the
second call yields a `BackupHashException` (the spec's
`DuplicateContentError`) referencing the previous backup's path, the
newly written duplicate archive having been deleted.  With `force=true`
the second call leaves two archives, provided the destination's
retention count is at least `2` (with `retention_count = 1` and
`keep=false` the rotation that runs inside the same call immediately
deletes the older archive, so only one archive remains). -/
theorem C2_unchanged_double_create (t : Str) (tr : FTree) (d : Destination)
    (clock : Nat → DateTime) (nm : Str) (hg : goodNaming t d clock 2) :
    create_backups clock false false (singlePreset nm t d)
        (mkCreateFS t tr d clock []) 0 =
      ⟨[.backup (bkAt t tr d clock 0)], mkCreateFS t tr d clock [0], 1, none⟩ ∧
    create_backups clock false false (singlePreset nm t d)
        (mkCreateFS t tr d clock [0]) 1 =
      ⟨[.err (.backupHash (d.path ++ '/' :: fnameAt t d clock 0))],
        mkCreateFS t tr d clock [0], 2, none⟩ ∧
    ((mkCreateFS t tr d clock [0]).dirFiles d.path).length = 1 ∧
    (2 ≤ d.max_backup_count →
      create_backups clock true false (singlePreset nm t d)
          (mkCreateFS t tr d clock [0]) 1 =
        ⟨[.backup (bkAt t tr d clock 1)], mkCreateFS t tr d clock [0, 1], 2, none⟩ ∧
      ((mkCreateFS t tr d clock [0, 1]).dirFiles d.path).length = 2) := by
  have hk1 : 1 ≤ d.max_backup_count := hg.2.1
  have h1 : processPair clock false false (mkCreateFS t tr d clock []) 0 t d =
      .ok (.backup (bkAt t tr d clock 0), mkCreateFS t tr d clock [0], 1) := by
    have := processPair_fresh_small t tr d clock 2 hg false false [] 0
      (by omega) (by simp) List.Pairwise.nil (Or.inr rfl) rfl
      (by simpa using hk1)
    simpa using this
  have h2 : processPair clock false false (mkCreateFS t tr d clock [0]) 1 t d =
      .ok (.err (.backupHash (d.path ++ '/' :: fnameAt t d clock 0)),
        mkCreateFS t tr d clock [0], 2) := by
    have := processPair_dup t tr d clock 2 hg false [] 0 1
      (by omega) (by simp) (by simp)
    simpa using this
  refine ⟨?_, ?_, ?_, ?_⟩
  · rw [create_backups_single, h1]
  · rw [create_backups_single, h2]
  · rw [dirFiles_mkCreateFS]; rfl
  · intro hk2
    have h3 : processPair clock true false (mkCreateFS t tr d clock [0]) 1 t d =
        .ok (.backup (bkAt t tr d clock 1), mkCreateFS t tr d clock [0, 1], 2) := by
      have := processPair_fresh_small t tr d clock 2 hg true false [0] 1
        (by omega) (by simp) (List.pairwise_singleton _ _) (Or.inl rfl) rfl
        (by simpa using hk2)
      simpa using this
    constructor
    · rw [create_backups_single, h3]
    · rw [dirFiles_mkCreateFS]; rfl

theorem C2_counterexample :
    c2runA.raised = none ∧ c2runB.raised = none ∧
    (∃ b, c2runA.items = [Item.backup b]) ∧
    (∃ b, c2runB.items = [Item.backup b]) ∧
    (c2runB.fs.dirFiles dW1.path).length = 1 ∧
    ¬ (c2runB.fs.dirFiles dW1.path).length = 2 := by
  refine ⟨rfl, rfl, ⟨_, rfl⟩, ⟨_, rfl⟩, by decide, by decide⟩

theorem C2_witness :
    goodNaming tW dW clkW 2 ∧ 2 ≤ dW.max_backup_count ∧
    create_backups clkW false false (singlePreset nmW tW dW)
        (mkCreateFS tW trW dW clkW []) 0 =
      ⟨[.backup (bkAt tW trW dW clkW 0)], mkCreateFS tW trW dW clkW [0], 1, none⟩ ∧
    create_backups clkW false false (singlePreset nmW tW dW)
        (mkCreateFS tW trW dW clkW [0]) 1 =
      ⟨[.err (.backupHash (dW.path ++ '/' :: fnameAt tW dW clkW 0))],
        mkCreateFS tW trW dW clkW [0], 2, none⟩ ∧
    create_backups clkW true false (singlePreset nmW tW dW)
        (mkCreateFS tW trW dW clkW [0]) 1 =
      ⟨[.backup (bkAt tW trW dW clkW 1)], mkCreateFS tW trW dW clkW [0, 1], 2, none⟩ := by
  have h := C2_unchanged_double_create tW trW dW clkW nmW (by decide)
  exact ⟨by decide, by decide, h.1, h.2.1, (h.2.2.2 (by decide)).1⟩

/-- C10.  For every file path whose suffix is not `.zip`,
`BackupManager.get_backup_from_file` returns no `Backup` — the method
falls through to `None` instead of raising an unsupported-format error. -/
theorem C10_non_zip_suffix_returns_none (dpath fname : Str) (ar : Archive)
    (h : pySuffix fname ≠ ['.', 'z', 'i', 'p']) :
    get_backup_from_file dpath fname ar = .ok none := by
  unfold get_backup_from_file
  rw [if_neg h]

theorem C10_witness :
    pySuffix "a.txt".data ≠ ['.', 'z', 'i', 'p'] ∧
    get_backup_from_file "/bk".data "a.txt".data ⟨[], none⟩ = .ok none :=
  ⟨by decide, C10_non_zip_suffix_returns_none "/bk".data "a.txt".data ⟨[], none⟩
    (by decide)⟩

/-- C6.  For every backup whose `content_type` is `"file"` and every
restore target that currently holds a directory, `restore_backup` fails
with `ContentTypeException` (the spec's `ContentTypeMismatchError`) and
returns the target slice unchanged: the existing directory and its entire
contents are untouched. -/
theorem C6_restore_file_onto_directory (st : RestoreState) (b : Backup)
    (ar : Archive) (hparent : st.parentExists = true)
    (hdir : isDirAt st.current = true)
    (hct : b.content_type = ['f', 'i', 'l', 'e']) :
    restore_backup st b ar = (st, some (.contentType b.content_type)) := by
  unfold restore_backup
  rw [if_neg (by rw [hparent]; simp), if_pos (Or.inl ⟨hdir, hct⟩)]

theorem C6_witness :
    stC6.parentExists = true ∧ isDirAt stC6.current = true ∧
    (bkAt tW trW dW clkW 0).content_type = ['f', 'i', 'l', 'e'] ∧
    restore_backup stC6 (bkAt tW trW dW clkW 0) (arOf tW trW dW) =
      (stC6, some (.contentType (bkAt tW trW dW clkW 0).content_type)) :=
  ⟨rfl, rfl, by decide,
    C6_restore_file_onto_directory stC6 (bkAt tW trW dW clkW 0) (arOf tW trW dW)
      rfl rfl (by decide)⟩

theorem C8_counterexample :
    destinationInit true true "/bk".data fmtDefault "_".data 3 "zip".data =
      .ok ⟨"/bk".data, fmtDefault, "_".data, 3, "zip".data⟩ ∧
    occursIn "_".data (strftime ⟨2024, 3, 7, 15, 4, 5, 0⟩ fmtDefault) = true := by
  exact ⟨by decide, by decide⟩

/-- C8 (amended).  `Destination` construction validates only that the path
exists and is a directory, that the retention count is a positive
integer, and that the format is known; the `name_separator` setter merely
type-checks its argument, so a separator that can occur in stems or in
rendered timestamps is accepted — the non-occurrence invariant is not
enforced at construction time. -/
theorem C8_separator_not_validated (pathExists pathIsDir : Bool)
    (path fmt sep : Str) (count : Int) (hpe : pathExists = true)
    (hpd : pathIsDir = true) (hc : 0 < count) :
    destinationInit pathExists pathIsDir path fmt sep count ['z', 'i', 'p'] =
      .ok ⟨path, fmt, sep, count.toNat, ['z', 'i', 'p']⟩ := by
  subst hpe hpd
  unfold destinationInit
  rw [if_neg (by simp), if_neg (by simp), if_neg (by omega), if_neg (by simp)]

theorem C8_witness :
    (0 : Int) < 3 ∧
    destinationInit true true "/bk".data fmtDefault "_".data 3 ['z', 'i', 'p'] =
      .ok ⟨"/bk".data, fmtDefault, "_".data, (3 : Int).toNat, ['z', 'i', 'p']⟩ :=
  ⟨by decide,
    C8_separator_not_validated true true "/bk".data fmtDefault "_".data 3
      rfl rfl (by decide)⟩

/-- C9.  `get_backups` called with a `Preset` source and a target filter
reads the local `backups` before any assignment: CPython raises
`UnboundLocalError` instead of returning the target's backups across the
preset's destinations (and the branch also lacks a `return` statement), so
the documented list is never produced. -/
theorem C9_preset_target_unbound_local :
    get_backups (mkCreateFS tW trW dW clkW [0])
        (.preset (singlePreset nmW tW dW)) (some tW) =
      .error (.unboundLocal "backups".data) := rfl

/-- C5.  A malformed foreign archive in the destination makes the
latest-backup lookup raise `NotABackupException` out of the
`create_backups` generator before anything is yielded: the run produces
no per-pair results at all even though the preset has two pairs, so a
failure on one pair does abort the remaining pairs, contradicting the
claim (and the function's own comment that the generator must not die). -/
theorem C5_error_raised_out_of_generator :
    pairsOf pC5 = [(tW, dW), (t2W, dW)] ∧
    c5run.items = [] ∧
    c5run.raised = some (.notABackup "/bk/junk.zip".data) := by
  exact ⟨by decide, rfl, by decide⟩

theorem C3_counterexample :
    specContentDigest trA = specContentDigest trB ∧
    ((create_zip_archive "n".data "/tmp/t".data "t".data trA dW).2.meta.map
        (fun m => m.content_hash)) ≠
      ((create_zip_archive "n".data "/tmp/t".data "t".data trB dW).2.meta.map
        (fun m => m.content_hash)) ∧
    specContentDigest (FTree.file "xy".data) =
      specContentDigest (FTree.file "xy".data) ∧
    ((create_zip_archive "n".data "/tmp/a.txt".data "a.txt".data
        (FTree.file "xy".data) dW).2.meta.map (fun m => m.content_hash)) ≠
      ((create_zip_archive "n".data "/tmp/b.txt".data "b.txt".data
        (FTree.file "xy".data) dW).2.meta.map (fun m => m.content_hash)) := by
  exact ⟨rfl, by decide, rfl, by decide⟩

/-- C3 (amended).  The `content_hash` stored in the embedded metadata is
the MD5 digest of the archive file's bytes as written before the metadata
entry is appended — a fingerprint of the ordered archived entries (their
relative paths, kinds and contents) — not a digest of the target's raw
contents: it coincides between two targets exactly when their archived
entry lists coincide, so it depends on file names/paths as well as
bytes. -/
theorem C3_hash_is_archive_fingerprint (an tpath tname : Str) (tr : FTree)
    (d : Destination) :
    (create_zip_archive an tpath tname tr d).2.meta =
      some ⟨tpath, d.name_separator, d.date_format, md5 (mkEntries tname tr),
        get_content_type tr⟩ ∧
    (∀ tr2 : FTree, md5 (mkEntries tname tr) = md5 (mkEntries tname tr2) ↔
      mkEntries tname tr = mkEntries tname tr2) :=
  ⟨rfl, fun _ => Iff.rfl⟩

lemma globZipMatch_suffix {s : Str} (h : globZipMatch s = true) :
    pySuffix s = ['.', 'z', 'i', 'p'] := by
  unfold globZipMatch at h
  rw [Bool.and_eq_true] at h
  obtain ⟨hsuf, hhead⟩ := h
  rw [List.isSuffixOf_iff_suffix] at hsuf
  obtain ⟨x, rfl⟩ := hsuf
  cases x with
  | nil => exact absurd hhead (by decide)
  | cons c cs => exact pySuffix_append_zip (by simp)

lemma collectBackups_error_mid (dpath : Str) (good : List (Str × Archive))
    (nm : Str) (es : List Entry) (tail : List (Str × Archive))
    (hgood : ∀ f ∈ good, ∃ b, get_backup_from_file dpath f.1 f.2 = .ok (some b))
    (hsuffix : pySuffix nm = ['.', 'z', 'i', 'p']) :
    collectBackups dpath (good ++ (nm, ⟨es, none⟩) :: tail) =
      .error (.notABackup (dpath ++ '/' :: nm)) := by
  induction good with
  | nil =>
    show collectBackups dpath ((nm, ⟨es, none⟩) :: tail) = _
    unfold collectBackups
    have hjunk : get_backup_from_file dpath nm ⟨es, none⟩ =
        .error (.notABackup (dpath ++ '/' :: nm)) := by
      unfold get_backup_from_file
      rw [if_pos hsuffix]
    rw [hjunk]
  | cons f good' ih =>
    obtain ⟨n, ar⟩ := f
    obtain ⟨b, hb⟩ := hgood (n, ar) (by simp)
    show collectBackups dpath ((n, ar) :: (good' ++ (nm, ⟨es, none⟩) :: tail)) = _
    unfold collectBackups
    rw [hb, ih (fun g hg => hgood g (by simp [hg]))]

/-- C4 (amended).  Discovery on a destination whose directory holds any
malformed `.zip`-named file lacking the embedded metadata record raises
`NotABackupException` for that file out of `_get_destination_backups`,
aborting the whole listing: the valid backups read before it are
discarded and no result list is produced. -/
theorem C4_discovery_aborts_on_malformed (d : Destination) (fs : FS)
    (good : List (Str × Archive)) (nm : Str) (es : List Entry)
    (rest : List (Str × Archive))
    (hfmt : d.file_format = ['z', 'i', 'p'])
    (hdir : fs.dirFiles d.path = good ++ (nm, ⟨es, none⟩) :: rest)
    (hgood : ∀ f ∈ good, globZipMatch f.1 = true ∧
      ∃ b, get_backup_from_file d.path f.1 f.2 = .ok (some b))
    (hnm : globZipMatch nm = true) :
    get_destination_backups fs d = .error (.notABackup (d.path ++ '/' :: nm)) := by
  unfold get_destination_backups
  rw [if_pos hfmt, hdir, List.filter_append, List.filter_cons]
  have hfg : good.filter (fun f => globZipMatch f.1) = good :=
    List.filter_eq_self.mpr (fun f hf => (hgood f hf).1)
  rw [hfg, if_pos hnm,
    collectBackups_error_mid d.path good nm es
      (rest.filter (fun f => globZipMatch f.1))
      (fun f hf => (hgood f hf).2) (globZipMatch_suffix hnm)]

theorem C4_counterexample :
    get_backup_from_file dW.path (fnameAt tW dW clkW 0) (arOf tW trW dW) =
      .ok (some (bkAt tW trW dW clkW 0)) ∧
    get_destination_backups fsC4 dW = .error (.notABackup "/bk/junk.zip".data) ∧
    ∀ bs, get_destination_backups fsC4 dW ≠ .ok bs := by
  refine ⟨by decide, by decide, ?_⟩
  intro bs h
  have he : get_destination_backups fsC4 dW =
      .error (.notABackup "/bk/junk.zip".data) := by decide
  rw [he] at h
  exact absurd h (by simp)

theorem C4_witness :
    dW.file_format = ['z', 'i', 'p'] ∧
    globZipMatch "junk.zip".data = true ∧
    get_destination_backups fsC4 dW = .error (.notABackup "/bk/junk.zip".data) := by
  refine ⟨rfl, by decide, ?_⟩
  have h := C4_discovery_aborts_on_malformed dW fsC4
    [(fnameAt tW dW clkW 0, arOf tW trW dW)] "junk.zip".data [] []
    rfl (by decide)
    (by
      intro f hf
      simp only [List.mem_singleton] at hf
      subst hf
      exact ⟨by decide, ⟨bkAt tW trW dW clkW 0, by decide⟩⟩)
    (by decide)
  have hpath : dW.path ++ '/' :: "junk.zip".data = "/bk/junk.zip".data := by decide
  rw [hpath] at h
  exact h

theorem C7_counterexample :
    get_content_type trDirW = "folder".data ∧
    (∃ b, c7run.items = [Item.backup b] ∧ b.content_type = "folder".data) ∧
    "folder".data ≠ "directory".data ∧
    ("folder".data : Str) ∉ (["file".data, "directory".data] : List Str) := by
  refine ⟨rfl, ⟨bkAt tDirW trDirW dW clkW 0, by decide, by decide⟩,
    by decide, by decide⟩

/-- C7 (amended).  The `content_type` recorded by `get_content_type`, and
hence by every embedded metadata record and every `Backup` the engine
creates or reads back from an engine-written archive, is one of exactly
`"file"` or `"folder"`; a directory target is recorded as `"folder"`
(not `"directory"`), and reconstruction copies the recorded value
verbatim. -/
theorem C7_content_type_values :
    (∀ tr : FTree, get_content_type tr = ['f', 'i', 'l', 'e'] ∨
      get_content_type tr = ['f', 'o', 'l', 'd', 'e', 'r']) ∧
    (∀ (an tpath tname : Str) (tr : FTree) (d : Destination) (m : Metadata),
      (create_zip_archive an tpath tname tr d).2.meta = some m →
      m.content_type = get_content_type tr) ∧
    (∀ (dpath fname : Str) (ar : Archive) (m : Metadata) (b : Backup),
      ar.meta = some m →
      get_backup_from_file dpath fname ar = .ok (some b) →
      b.content_type = m.content_type) := by
  refine ⟨?_, ?_, ?_⟩
  · intro tr
    cases tr with
    | file c => exact Or.inl rfl
    | dir cs => exact Or.inr rfl
  · intro an tpath tname tr d m h
    have hm : (⟨tpath, d.name_separator, d.date_format,
        md5 (mkEntries tname tr), get_content_type tr⟩ : Metadata) = m := by
      have := h
      simp only [create_zip_archive, Option.some.injEq] at this
      exact this
    rw [← hm]
  · intro dpath fname ar m b hmeta h
    unfold get_backup_from_file at h
    by_cases hz : pySuffix fname = ['.', 'z', 'i', 'p']
    · rw [if_pos hz, hmeta] at h
      cases hsp : pySplit (pyStem fname) m.name_separator with
      | error e => simp [hsp, bind, Except.bind] at h
      | ok parts =>
        simp only [hsp, bind, Except.bind] at h
        cases hi0 : pyIndex parts 0 with
        | error e => simp [hi0] at h
        | ok name_str =>
          simp only [hi0] at h
          cases hi1 : pyIndex parts 1 with
          | error e => simp [hi1] at h
          | ok date_str =>
            simp only [hi1] at h
            cases hst : strptime m.date_format date_str with
            | none => simp [hst] at h
            | some date =>
              simp only [hst, Except.ok.injEq, Option.some.injEq] at h
              rw [← h]
    · rw [if_neg hz] at h
      exact absurd h (by simp)

theorem C7_witness :
    (arOf tW trW dW).meta = some (metaOf tW trW dW) ∧
    get_backup_from_file dW.path (fnameAt tW dW clkW 0) (arOf tW trW dW) =
      .ok (some (bkAt tW trW dW clkW 0)) ∧
    (bkAt tW trW dW clkW 0).content_type = (metaOf tW trW dW).content_type ∧
    (metaOf tW trW dW).content_type = get_content_type trW := by
  refine ⟨rfl, by decide, ?_, ?_⟩
  · exact C7_content_type_values.2.2 dW.path (fnameAt tW dW clkW 0)
      (arOf tW trW dW) (metaOf tW trW dW) (bkAt tW trW dW clkW 0) rfl (by decide)
  · exact C7_content_type_values.2.1 (fnameAt tW dW clkW 0) tW
      (lastComponent tW) trW dW (metaOf tW trW dW) rfl
